import Mathlib

/-!
Verification of the Shamsi (solar Hijri) calendar application
`src/shamsi_calendar.23.py`.

Python strings are modelled as `List Char`, Python's `None`-or-string
dialog results as `Option (List Char)`, and the in-memory `events`
dictionary as a function from date keys to lists of untyped records
(`List PyVal`), so that the "every stored event has exactly four fields"
invariant is a real property rather than a typing artefact.
-/

namespace ShamsiCalendar

/-! ## Characters and digits -/

/-- Test for an ASCII digit, the character class `[0-9]` (code points 48-57). -/
def isDig (c : Char) : Bool := decide (48 ≤ c.toNat ∧ c.toNat ≤ 57)

/-- Numeric value of an ASCII digit character. -/
def digitVal (c : Char) : Nat := c.toNat - 48

/-- The ASCII digit character for `n` (used by `str` on a natural number). -/
def digitChar (n : Nat) : Char :=
  match n with
  | 0 => '0' | 1 => '1' | 2 => '2' | 3 => '3' | 4 => '4'
  | 5 => '5' | 6 => '6' | 7 => '7' | 8 => '8' | _ => '9'

/-- Decimal digits of `n`, most significant first: the model of Python
`str` applied to a non-negative integer (as in `save_events`' key join). -/
def natToDigits (n : Nat) : List Char :=
  if _h : n < 10 then [digitChar n]
  else natToDigits (n / 10) ++ [digitChar (n % 10)]
termination_by n
decreasing_by exact Nat.div_lt_self (by omega) (by omega)

/-- Left fold of decimal digits onto an accumulator. -/
def parseDigitsFrom (acc : Nat) : List Char → Nat
  | [] => acc
  | c :: cs => parseDigitsFrom (acc * 10 + digitVal c) cs

/-- Numeric value of a string of decimal digits: the digit-string case of
Python `int`, as used by `load_events` on the pieces of a date key. -/
def parseNat (cs : List Char) : Nat := parseDigitsFrom 0 cs

/-! ## Splitting and joining on a separator character

`save_events` (line 40) writes each date key `(y, m, d)` as the string
`str(y) + "-" + str(m) + "-" + str(d)`; `load_events` (line 33) recovers
the key with `tuple(map(int, k.split("-")))`. -/

/-- Model of Python `str.split(sep)` for a single-character separator:
splitting the empty string gives one empty piece, and each occurrence of
the separator starts a new piece. -/
def splitOnChar (sep : Char) : List Char → List (List Char)
  | [] => [[]]
  | c :: cs =>
    match splitOnChar sep cs with
    | [] => [[]]
    | r :: rs => if c = sep then [] :: r :: rs else (c :: r) :: rs

/-! ## The model of Python `int` on strings

`int(s)` strips surrounding whitespace, accepts an optional sign, and
then requires a non-empty run of decimal digits.  (Digit-group
underscores, accepted by CPython, are not modelled; no part of any claim
depends on them.) -/

/-- Value of a non-empty all-digit string, as an integer. -/
def digitsToIntOpt (l : List Char) : Option Int :=
  if ¬l.isEmpty ∧ l.all isDig then some (parseNat l : Int) else none

/-- Sign handling of Python `int` after whitespace stripping. -/
def pyIntCore : List Char → Option Int
  | [] => none
  | c :: cs =>
    if c = '-' then (digitsToIntOpt cs).map (fun n => -n)
    else if c = '+' then digitsToIntOpt cs
    else digitsToIntOpt (c :: cs)

/-- Strip whitespace from both ends of a string. -/
def stripWs (s : List Char) : List Char :=
  ((s.dropWhile Char.isWhitespace).reverse.dropWhile Char.isWhitespace).reverse

/-- Model of Python `int` applied to a string: `none` models the
`ValueError` raised on malformed input. -/
def pyInt (s : List Char) : Option Int := pyIntCore (stripWs s)

/-! ## Claim C2: the date-key codec round-trips -/

/-- Translation of the key encoding in `save_events` (line 40):
`"-".join(map(str, k))` for a key triple of non-negative integers. -/
def encodeKey (k : Nat × Nat × Nat) : List Char :=
  natToDigits k.1 ++ '-' :: (natToDigits k.2.1 ++ '-' :: natToDigits k.2.2)

/-- Decoding of all pieces of a split key through `int`; `none` models the
`ValueError` a malformed piece would raise inside `load_events`. -/
def mapPyInt : List (List Char) → Option (List Int)
  | [] => some []
  | p :: ps =>
    match pyInt p, mapPyInt ps with
    | some n, some ns => some (n :: ns)
    | _, _ => none

/-- Translation of the key decoding in `load_events` (line 33):
`tuple(map(int, k.split("-")))`. -/
def decodeKey (s : List Char) : Option (List Int) :=
  mapPyInt (splitOnChar '-' s)

/-- Key part of `save_events` (line 40) applied to a whole store: each
entry's key is encoded, each value is written unchanged. -/
def encodeStore {V : Type} (st : List ((Nat × Nat × Nat) × V)) :
    List (List Char × V) :=
  st.map (fun kv => (encodeKey kv.1, kv.2))

/-- Key part of `load_events` (line 33) applied to a whole store: each
entry's key is decoded, each value is kept unchanged; `none` models a
decode failure. -/
def decodeStore {V : Type} : List (List Char × V) → Option (List (List Int × V))
  | [] => some []
  | (s, v) :: rest =>
    match decodeKey s, decodeStore rest with
    | some k, some r => some ((k, v) :: r)
    | _, _ => none

/-- The components of a key triple, as integers. -/
def keyToList (k : Nat × Nat × Nat) : List Int := [(k.1 : Int), (k.2.1 : Int), (k.2.2 : Int)]

/-! ## Claim C1: days in a month

`get_days_in_month` (line 228) is a single conditional expression; its
month-12 branch consults `is_leap_year`, which defers entirely to the
external `jdatetime` library (it asks whether day 30 of month 12 exists).
The embedding therefore takes the leap-year predicate as a parameter and
the claim is proved for every such predicate. -/

/-- Translation of `get_days_in_month` (line 228), parametric in the
`is_leap_year` predicate that the source delegates to `jdatetime`. -/
def get_days_in_month (isLeap : Int → Bool) (year month : Int) : Int :=
  if month ≤ 6 then 31
  else if month ≤ 11 then 30
  else if isLeap year then 30 else 29

/-! ## Claim C4: month navigation -/

/-- Translation of the arithmetic core of `change_month` (lines 333-348):
the displayed month is moved by `delta`, wrapping past month 1 to month 12
of the previous year and past month 12 to month 1 of the next year.
Returns the `(year, month)` pair that the function writes back into the
entry fields and persists. -/
def change_month (y m delta : Int) : Int × Int :=
  let m' := m + delta
  if m' < 1 then (y - 1, 12)
  else if 12 < m' then (y + 1, 1)
  else (y, m')

/-! ## Claim C5: time validation

`validate_time` (lines 70-75) returns `True` on the empty string and
otherwise returns `bool(re.match(r'^([0-1]?[0-9]|2[0-3]):[0-5][0-9]$', s))`.
The embedding below is the language of that regular expression under
Python `re` semantics, spelled out: the hour group is the union of the
three shapes `[0-1][0-9]`, `[0-9]` and `2[0-3]` (the optional `[0-1]?`
expanded), and `$` matches at the end of the string or just before a
newline that ends the string.  Character classes are coded as code-point
ranges (`'0'` is 48, `':'` is 58, `'\n'` is 10). -/

/-- Python `re` semantics of the `$` anchor applied to the remainder of
the string: it matches when nothing follows, or when exactly one newline
follows. -/
def endAnchor : List Char → Bool
  | [] => true
  | [c] => decide (c.toNat = 10)
  | _ => false

/-- The regex fragment `:[0-5][0-9]$` applied to the rest of the string
after the hour group. -/
def validTail : List Char → Bool
  | c :: d1 :: d2 :: rest =>
    decide (c.toNat = 58) && decide (48 ≤ d1.toNat ∧ d1.toNat ≤ 53) &&
      isDig d2 && endAnchor rest
  | _ => false

/-- The hour group `([0-1]?[0-9]|2[0-3])` followed by `:[0-5][0-9]$`:
the union of the three ways the group can match. -/
def hourAlt (s : List Char) : Bool :=
  (match s with
   | c1 :: c2 :: rest =>
     decide (48 ≤ c1.toNat ∧ c1.toNat ≤ 49) && isDig c2 && validTail rest
   | _ => false) ||
  (match s with
   | c :: rest => isDig c && validTail rest
   | _ => false) ||
  (match s with
   | c1 :: c2 :: rest =>
     decide (c1.toNat = 50) && decide (48 ≤ c2.toNat ∧ c2.toNat ≤ 51) && validTail rest
   | _ => false)

/-- Translation of `validate_time` (lines 70-75). -/
def validate_time (s : List Char) : Bool :=
  if s.isEmpty then true else hourAlt s

/-- Stated from the claim's words: a string of one or two digits whose
value is an hour 0-23. -/
def specHourOk (hs : List Char) : Bool :=
  decide (hs.length = 1 ∨ hs.length = 2) && hs.all isDig && decide (parseNat hs ≤ 23)

/-- Stated from the claim's words: two digits whose value is a minute 0-59. -/
def specMinOk (ms : List Char) : Bool :=
  decide (ms.length = 2) && ms.all isDig && decide (parseNat ms ≤ 59)

/-- Stated from the claim's words: 24-hour `HH:MM` form, the hour written
with one or two digits and the minute with two.  Such a string has length
4 or 5 with `':'` (code point 58) in the middle. -/
def specHHMM (s : List Char) : Bool :=
  match s with
  | [h1, c, m1, m2] => decide (c.toNat = 58) && specHourOk [h1] && specMinOk [m1, m2]
  | [h1, h2, c, m1, m2] => decide (c.toNat = 58) && specHourOk [h1, h2] && specMinOk [m1, m2]
  | _ => false

/-- The claim's characterisation of `validate_time`: true exactly on the
empty string and on `HH:MM` form. -/
def specTimeOk (s : List Char) : Bool := s.isEmpty || specHHMM s

/-- The amended characterisation: additionally true when a single
trailing newline follows the `HH:MM` form, because Python's `$` also
matches just before a newline that ends the string. -/
def specTimeOkNL (s : List Char) : Bool :=
  s.isEmpty || specHHMM s ||
  ((match s.getLast? with
    | some c => decide (c.toNat = 10)
    | none => false) && specHHMM s.dropLast)

/-- The string `"High"`. -/
def highStr : List Char := ['H', 'i', 'g', 'h']
/-- The string `"Medium"`. -/
def mediumStr : List Char := ['M', 'e', 'd', 'i', 'u', 'm']
/-- The string `"Low"`. -/
def lowStr : List Char := ['L', 'o', 'w']
/-- The string `"Unknown"`. -/
def unknownStr : List Char := ['U', 'n', 'k', 'n', 'o', 'w', 'n']

/-- Translation of `priority_to_str` (lines 77-79): dictionary lookup with
default `"Unknown"`. -/
def priority_to_str (priority : Int) : List Char :=
  if priority = 1 then highStr
  else if priority = 2 then mediumStr
  else if priority = 3 then lowStr
  else unknownStr

/-- Translation of `str_to_priority` (lines 81-83): dictionary lookup with
default `2`. -/
def str_to_priority (priority_str : List Char) : Int :=
  if priority_str = highStr then 1
  else if priority_str = mediumStr then 2
  else if priority_str = lowStr then 3
  else 2

/-! ## The event store

The global `events` dictionary maps `(year, month, day)` triples to lists
of event records.  A record is modelled as an untyped list of Python
values (`List PyVal`), exactly as Python stores a tuple of heterogeneous
fields, so that "every stored event has four fields" is a genuine
invariant.  A missing dictionary key and an empty list are identified,
matching every read site (`events.get(key, [])`). -/

/-- A date key `(year, month, day)`. -/
abbrev Key := Int × Int × Int

/-- A Python value as it occurs in an event record: a string, an integer,
or `None` (the colour picker returns `None` when cancelled). -/
inductive PyVal where
  | vstr : List Char → PyVal
  | vint : Int → PyVal
  | vnone : PyVal
deriving DecidableEq

/-- The in-memory events store. -/
abbrev Store := Key → List (List PyVal)

/-- Python truthiness of a dialog result: `None` and the empty string are
falsy. -/
def truthyStr : Option (List Char) → Bool
  | some (_ :: _) => true
  | _ => false

/-- The string carried by an optional dialog result, with `None` read as
the empty string (the effect of Python's `x or ""`). -/
def strOrEmpty : Option (List Char) → List Char
  | some s => s
  | none => []

/-- The colour field as stored: the chosen colour string, or `None` when
the colour chooser was cancelled. -/
def colorVal : Option (List Char) → PyVal
  | some s => PyVal.vstr s
  | none => PyVal.vnone

/-- The dialog answers consumed by one run of `add_event`: the event text,
the optional time string, the priority (already confined to 1..3 by the
integer dialog, `None` when cancelled), and the colour. -/
structure AddInputs where
  text : Option (List Char)
  time : Option (List Char)
  priority : Option Int
  color : Option (List Char)

/-- Translation of `add_event` (lines 87-102): with a truthy event text,
an invalid non-empty time aborts without touching the store; a cancelled
priority dialog aborts; otherwise the 4-tuple
`(event, color_code, time or "", priority)` is appended under the key. -/
def add_event (st : Store) (key : Key) (inp : AddInputs) : Store :=
  if truthyStr inp.text then
    if truthyStr inp.time && !validate_time (strOrEmpty inp.time) then st
    else
      match inp.priority with
      | none => st
      | some p => fun k =>
          if k = key then
            st key ++ [[PyVal.vstr (strOrEmpty inp.text), colorVal inp.color,
                        PyVal.vstr (strOrEmpty inp.time), PyVal.vint p]]
          else st k
  else st

/-- Translation of the edit panel's `save_changes` (lines 156-173)
together with the guard of `edit_event_panel` (line 117): with a valid
index into a non-empty event list, a non-empty text, and a time that is
empty or valid, the record at the index is replaced by the 4-tuple
`(new_text, new_color, new_time or "", str_to_priority(priority))`. -/
def edit_save (st : Store) (key : Key) (idx : Nat)
    (newText newTime prStr color : List Char) : Store :=
  if (st key).isEmpty || decide ((st key).length ≤ idx) then st
  else if newText.isEmpty then st
  else if !newTime.isEmpty && !validate_time newTime then st
  else fun k =>
    if k = key then
      (st key).set idx [PyVal.vstr newText, PyVal.vstr color,
                        PyVal.vstr newTime, PyVal.vint (str_to_priority prStr)]
    else st k

/-- Translation of the edit panel's `delete_event` (lines 175-182)
together with the guard of `edit_event_panel` (line 117): on confirmation
the record at the index is removed from the key's list. -/
def delete_event (st : Store) (key : Key) (idx : Nat) (confirm : Bool) : Store :=
  if (st key).isEmpty || decide ((st key).length ≤ idx) then st
  else if confirm then
    fun k => if k = key then (st key).eraseIdx idx else st k
  else st

/-- Translation of the day page's `delete_event_button` (lines 507-521):
on confirmation the key's list is replaced by the empty list. -/
def delete_event_button (st : Store) (key : Key) (confirm : Bool) : Store :=
  if (st key).isEmpty then st
  else if confirm then (fun k => if k = key then [] else st k)
  else st

/-! ## Importing events -/

/-- A raw imported JSON event value as `import_events` sees it: a list of
fields, a string (subscriptable but not a list, so `event[0]` is its first
character and the `isinstance` checks fail), or some other value on which
`event[0]` raises. -/
inductive RawEvent where
  | rlist : List PyVal → RawEvent
  | rstr : List Char → RawEvent
  | rother : RawEvent

/-- The default colour string `'#cccccc'`. -/
def defaultColor : List Char := ['#', 'c', 'c', 'c', 'c', 'c', 'c']

/-- Translation of the record builder inside `import_events` (lines
556-562): `event[0]` unconditionally (so `none` — an exception — when the
value has no first element), then each further field when present, with
defaults `'#cccccc'`, `""` and `2`. -/
def importOne : RawEvent → Option (List PyVal)
  | RawEvent.rlist [] => none
  | RawEvent.rlist (f0 :: rest) =>
      some [f0, rest.getD 0 (PyVal.vstr defaultColor),
            rest.getD 1 (PyVal.vstr []), rest.getD 2 (PyVal.vint 2)]
  | RawEvent.rstr [] => none
  | RawEvent.rstr (c :: _) =>
      some [PyVal.vstr [c], PyVal.vstr defaultColor, PyVal.vstr [], PyVal.vint 2]
  | RawEvent.rother => none

/-- All records of one imported day; `none` when any record raises. -/
def importDay : List RawEvent → Option (List (List PyVal))
  | [] => some []
  | e :: es =>
    match importOne e, importDay es with
    | some v, some vs => some (v :: vs)
    | _, _ => none

/-- The whole imported file; `none` when any record raises, in which case
`import_events`' `except` clause leaves the store untouched. -/
def importAll : List (Key × List RawEvent) → Option (List (Key × List (List PyVal)))
  | [] => some []
  | (k, es) :: rest =>
    match importDay es, importAll rest with
    | some vs, some r => some ((k, vs) :: r)
    | _, _ => none

/-- Lookup in an association list where a later binding of the same key
wins, as when a Python dict is built by iterated assignment. -/
def lookupLast {α : Type} : List (Key × α) → Key → Option α
  | [], _ => none
  | (k', v) :: rest, k =>
    match lookupLast rest k with
    | some r => some r
    | none => if k = k' then some v else none

/-- Translation of `import_events` (lines 548-570): on success the
imported entries overwrite the store's entries key by key
(`events.update(imported_events)`); on an exception nothing changes. -/
def import_events (st : Store) (raw : List (Key × List RawEvent)) : Store :=
  match importAll raw with
  | none => st
  | some imp => fun k =>
      match lookupLast imp k with
      | some v => v
      | none => st k

/-- The store invariant: every stored event record has exactly four
fields. -/
def WFStore (st : Store) : Prop := ∀ k : Key, ∀ e ∈ st k, e.length = 4

/-! ## Claim C7: `set_calendar` validates before persisting

`set_calendar` (lines 352-363) parses the two entry fields with `int`,
raises (into its own `except`) when the month is outside 1..12, and calls
`save_settings(y, m)` only after that check; every validation failure
shows an error and never reaches `save_settings`.  The embedding returns
the pair (settings on disk after the call, whether validation failed with
an error dialog), given the settings on disk before the call.  The
rendering that follows a successful save is outside the model (an error
it raises — e.g. from `jdatetime` on an out-of-range year — is shown only
after the settings were already persisted). -/

/-- Translation of `set_calendar` (lines 352-363) as a function of the two
entry strings and the previously persisted settings. -/
def set_calendar (yearStr monthStr : List Char) (saved : Option (Int × Int)) :
    Option (Int × Int) × Bool :=
  match pyInt yearStr, pyInt monthStr with
  | some y, some m =>
    if 1 ≤ m ∧ m ≤ 12 then (some (y, m), false) else (saved, true)
  | _, _ => (saved, true)

/-! ## Claim C8: `get_event_color` is total -/

/-- The ten blue shades of `get_event_color` (lines 63-66). -/
def shades : List (List Char) :=
  [['#', 'c', 'c', 'e', '5', 'f', 'f'],
   ['#', '9', '9', 'c', 'c', 'f', 'f'],
   ['#', '6', '6', 'b', '3', 'f', 'f'],
   ['#', '3', '3', '9', '9', 'f', 'f'],
   ['#', '1', 'a', '8', 'c', 'f', 'f'],
   ['#', '0', '0', '7', '3', 'e', '6'],
   ['#', '0', '0', '5', '9', 'b', '3'],
   ['#', '0', '0', '4', '0', '8', '0'],
   ['#', '0', '0', '2', '6', '4', 'd'],
   ['#', '0', '0', '1', 'a', '3', '3']]

/-- Python `x or d` on an optional string: `d` when `x` is `None` or
empty, otherwise `x`. -/
def pyOrStr (o : Option (List Char)) (d : List Char) : List Char :=
  match o with
  | some (c :: cs) => c :: cs
  | _ => d

/-- Translation of `get_event_color` (lines 61-68):
`event_color or shades[min(event_count, 10) - 1] if event_count > 0 else
default_color`, with `none` modelling an `IndexError` on the list access. -/
def get_event_color (event_count : Nat) (event_color : Option (List Char)) :
    Option (List Char) :=
  if 0 < event_count then
    match shades[min event_count 10 - 1]? with
    | some sh => some (pyOrStr event_color sh)
    | none => none
  else some defaultColor

/-! ## Claim C10: sorting a day's events by time

`sort_by_time` (lines 455-462) runs Python's stable `list.sort` with key
`lambda e: (e[2] == "", e[2] or "25:00")`: tuples compare
lexicographically, `False < True`, and strings compare lexicographically
by code point.  A day's events are the 4-field records guaranteed by the
store invariant (claim C3), so here an event is the typed quadruple
(text, color, time, priority) and `e[2]` is its time field.  Python's
stable sort is modelled by `List.mergeSort`. -/

/-- A 4-field event record `(text, color, time, priority)`. -/
abbrev SEvent := List Char × List Char × List Char × Int

/-- The time field `e[2]` of an event record. -/
def timeStr (e : SEvent) : List Char := e.2.2.1

/-- The sentinel `"25:00"` used for events without a time. -/
def t2500 : List Char := ['2', '5', ':', '0', '0']

/-- Python string `<=` by code points. -/
def lexLe : List Char → List Char → Bool
  | [], _ => true
  | _ :: _, [] => false
  | a :: as, b :: bs =>
    if a.toNat < b.toNat then true
    else if a.toNat = b.toNat then lexLe as bs
    else false

/-- The sort key `(e[2] == "", e[2] or "25:00")` of `sort_by_time`. -/
def sortKeyTime (e : SEvent) : Bool × List Char :=
  (decide (timeStr e = []), if timeStr e = [] then t2500 else timeStr e)

/-- Python `<=` on the key tuples: lexicographic with `False < True`. -/
def keyLe (a b : Bool × List Char) : Bool :=
  if a.1 = b.1 then lexLe a.2 b.2 else (!a.1 && b.1)

/-- The comparison `sort_by_time` sorts by. -/
def sortLe (a b : SEvent) : Bool := keyLe (sortKeyTime a) (sortKeyTime b)

/-- Translation of `sort_by_time` (line 458): a stable sort of the day's
events by `sortLe`. -/
def sort_by_time (l : List SEvent) : List SEvent := l.mergeSort sortLe

/-! ## Theorems -/

theorem digitVal_digitChar (n : Nat) (h : n ≤ 9) : digitVal (digitChar n) = n := by
  have hall : ∀ m : Fin 10, digitVal (digitChar m.val) = m.val := by decide
  exact hall ⟨n, by omega⟩

theorem digitChar_of_ge (n : Nat) (h : 9 ≤ n) : digitChar n = '9' := by
  unfold digitChar
  split <;> first | rfl | omega

theorem isDig_digitChar (n : Nat) : isDig (digitChar n) = true := by
  by_cases h : n ≤ 9
  · have hall : ∀ m : Fin 10, isDig (digitChar m.val) = true := by decide
    exact hall ⟨n, by omega⟩
  · rw [digitChar_of_ge n (by omega)]
    decide

theorem parseDigitsFrom_nil (a : Nat) : parseDigitsFrom a [] = a := rfl

theorem parseDigitsFrom_cons (a : Nat) (c : Char) (cs : List Char) :
    parseDigitsFrom a (c :: cs) = parseDigitsFrom (a * 10 + digitVal c) cs := rfl

theorem parseDigitsFrom_append (a : Nat) (xs ys : List Char) :
    parseDigitsFrom a (xs ++ ys) = parseDigitsFrom (parseDigitsFrom a xs) ys := by
  induction xs generalizing a with
  | nil => rfl
  | cons c cs ih =>
    show parseDigitsFrom (a * 10 + digitVal c) (cs ++ ys) =
      parseDigitsFrom (parseDigitsFrom (a * 10 + digitVal c) cs) ys
    exact ih _

theorem natToDigits_ne_nil (n : Nat) : natToDigits n ≠ [] := by
  unfold natToDigits
  split <;> simp

theorem parseDigitsFrom_natToDigits (n : Nat) :
    ∀ a : Nat, parseDigitsFrom a (natToDigits n) =
      a * 10 ^ (natToDigits n).length + n := by
  induction n using Nat.strong_induction_on with
  | _ n ih =>
    intro a
    by_cases h : n < 10
    · rw [natToDigits, dif_pos h]
      rw [parseDigitsFrom_cons, parseDigitsFrom_nil, digitVal_digitChar n (by omega)]
      simp
    · rw [natToDigits, dif_neg h]
      rw [parseDigitsFrom_append]
      rw [ih (n / 10) (Nat.div_lt_self (by omega) (by omega))]
      rw [parseDigitsFrom_cons, parseDigitsFrom_nil, digitVal_digitChar (n % 10) (by omega)]
      simp only [List.length_append, List.length_cons, List.length_nil, Nat.zero_add]
      generalize (natToDigits (n / 10)).length = L
      have h10 : 10 * (n / 10) + n % 10 = n := Nat.div_add_mod n 10
      calc (a * 10 ^ L + n / 10) * 10 + n % 10
          = a * (10 ^ L * 10) + (10 * (n / 10) + n % 10) := by ring
        _ = a * 10 ^ (L + 1) + n := by rw [pow_succ, h10]

theorem parseNat_natToDigits (n : Nat) : parseNat (natToDigits n) = n := by
  unfold parseNat
  rw [parseDigitsFrom_natToDigits]
  simp

theorem mem_natToDigits_isDig (n : Nat) :
    ∀ c ∈ natToDigits n, isDig c = true := by
  induction n using Nat.strong_induction_on with
  | _ n ih =>
    intro c hc
    by_cases h : n < 10
    · rw [natToDigits, dif_pos h] at hc
      simp at hc
      rw [hc]; exact isDig_digitChar n
    · rw [natToDigits, dif_neg h] at hc
      rcases List.mem_append.mp hc with h1 | h2
      · exact ih (n / 10) (Nat.div_lt_self (by omega) (by omega)) c h1
      · simp at h2
        rw [h2]; exact isDig_digitChar (n % 10)

theorem splitOnChar_append_of_not_mem {sep : Char} {s : List Char}
    (hs : sep ∉ s) {t : List Char} {r : List Char} {rs : List (List Char)}
    (ht : splitOnChar sep t = r :: rs) :
    splitOnChar sep (s ++ t) = (s ++ r) :: rs := by
  induction s with
  | nil => simpa using ht
  | cons c cs ih =>
    have hc : c ≠ sep := fun hcs => hs (hcs ▸ List.mem_cons_self c cs)
    have ih' := ih (fun hm => hs (List.mem_cons_of_mem c hm))
    show (match splitOnChar sep (cs ++ t) with
      | [] => [[]]
      | r :: rs => if c = sep then [] :: r :: rs else (c :: r) :: rs) = _
    rw [ih']
    simp [hc]

theorem splitOnChar_of_not_mem {sep : Char} {s : List Char} (hs : sep ∉ s) :
    splitOnChar sep s = [s] := by
  have h0 : splitOnChar sep ([] : List Char) = [] :: [] := rfl
  have := splitOnChar_append_of_not_mem hs h0
  simpa using this

theorem splitOnChar_cons_sep {sep : Char} {t : List Char} {r : List Char}
    {rs : List (List Char)} (ht : splitOnChar sep t = r :: rs) :
    splitOnChar sep (sep :: t) = [] :: r :: rs := by
  show (match splitOnChar sep t with
    | [] => [[]]
    | r :: rs => if sep = sep then [] :: r :: rs else (sep :: r) :: rs) = _
  rw [ht]
  simp

theorem dropWhile_eq_self_of_forall {p : Char → Bool} {l : List Char}
    (h : ∀ c ∈ l, p c = false) : l.dropWhile p = l := by
  cases l with
  | nil => rfl
  | cons c cs => simp [List.dropWhile_cons, h c (List.mem_cons_self c cs)]

theorem stripWs_of_digits {l : List Char} (h : ∀ c ∈ l, isDig c = true) :
    stripWs l = l := by
  have hws : ∀ c ∈ l, c.isWhitespace = false := by
    intro c hc
    have hd := h c hc
    simp only [isDig, decide_eq_true_eq] at hd
    by_contra hw
    rw [Bool.not_eq_false] at hw
    simp only [Char.isWhitespace, Bool.or_eq_true, decide_eq_true_eq] at hw
    rcases hw with ((h1 | h1) | h1) | h1 <;> subst h1 <;> revert hd <;> decide
  unfold stripWs
  rw [dropWhile_eq_self_of_forall hws]
  rw [dropWhile_eq_self_of_forall (fun c hc => hws c (List.mem_reverse.mp hc))]
  exact List.reverse_reverse l

theorem pyInt_natToDigits (n : Nat) : pyInt (natToDigits n) = some (n : Int) := by
  unfold pyInt
  rw [stripWs_of_digits (mem_natToDigits_isDig n)]
  rcases hd : natToDigits n with _ | ⟨c, cs⟩
  · exact absurd hd (natToDigits_ne_nil n)
  · have hc : isDig c = true := by
      have := mem_natToDigits_isDig n c
      rw [hd] at this
      exact this (List.mem_cons_self c cs)
    have hcdash : c ≠ '-' := by
      intro hcc
      rw [hcc] at hc
      exact absurd hc (by decide)
    have hcplus : c ≠ '+' := by
      intro hcc
      rw [hcc] at hc
      exact absurd hc (by decide)
    show (if c = '-' then (digitsToIntOpt cs).map (fun k => -k)
      else if c = '+' then digitsToIntOpt cs
      else digitsToIntOpt (c :: cs)) = some (n : Int)
    rw [if_neg hcdash, if_neg hcplus]
    unfold digitsToIntOpt
    rw [if_pos]
    · rw [← hd, parseNat_natToDigits]
    · constructor
      · simp
      · rw [← hd]
        rw [List.all_eq_true]
        exact mem_natToDigits_isDig n

theorem dash_not_mem_natToDigits (n : Nat) : '-' ∉ natToDigits n := by
  intro hm
  have := mem_natToDigits_isDig n '-' hm
  exact absurd this (by decide)

theorem splitOnChar_encodeKey (y m d : Nat) :
    splitOnChar '-' (encodeKey (y, m, d)) =
      [natToDigits y, natToDigits m, natToDigits d] := by
  unfold encodeKey
  have h3 : splitOnChar '-' (natToDigits d) = [natToDigits d] :=
    splitOnChar_of_not_mem (dash_not_mem_natToDigits d)
  have h2 : splitOnChar '-' (natToDigits m ++ '-' :: natToDigits d) =
      [natToDigits m, natToDigits d] := by
    have := splitOnChar_append_of_not_mem (dash_not_mem_natToDigits m)
      (splitOnChar_cons_sep h3)
    simpa using this
  have h1 := splitOnChar_append_of_not_mem (dash_not_mem_natToDigits y)
    (splitOnChar_cons_sep h2)
  simpa using h1

theorem decodeKey_encodeKey (y m d : Nat) :
    decodeKey (encodeKey (y, m, d)) = some [(y : Int), (m : Int), (d : Int)] := by
  unfold decodeKey
  rw [splitOnChar_encodeKey]
  unfold mapPyInt
  rw [pyInt_natToDigits y]
  unfold mapPyInt
  rw [pyInt_natToDigits m]
  unfold mapPyInt
  rw [pyInt_natToDigits d]
  rfl

/-- Claim C2: decoding as `load_events` does the store that `save_events`
writes succeeds and returns exactly the original keys (as their component
triples) with every value — in particular every four-field event record —
attached unchanged to its key. -/
theorem c2_key_codec_round_trip {V : Type} (st : List ((Nat × Nat × Nat) × V)) :
    decodeStore (encodeStore st) = some (st.map (fun kv => (keyToList kv.1, kv.2))) := by
  induction st with
  | nil => rfl
  | cons kv rest ih =>
    rcases kv with ⟨⟨y, m, d⟩, v⟩
    show decodeStore ((encodeKey (y, m, d), v) :: encodeStore rest) = _
    unfold decodeStore
    rw [decodeKey_encodeKey, ih]
    rfl

/-- Claim C1: for every year and every month between 1 and 12,
`get_days_in_month` returns 31 when the month is at most 6, 30 when the
month is between 7 and 11, and for month 12 it returns 30 when the
leap-year predicate holds of the year and 29 otherwise. -/
theorem c1_days_in_month (isLeap : Int → Bool) (year month : Int)
    (h1 : 1 ≤ month) (h2 : month ≤ 12) :
    (month ≤ 6 → get_days_in_month isLeap year month = 31) ∧
    (7 ≤ month → month ≤ 11 → get_days_in_month isLeap year month = 30) ∧
    (month = 12 → isLeap year = true → get_days_in_month isLeap year month = 30) ∧
    (month = 12 → isLeap year = false → get_days_in_month isLeap year month = 29) := by
  unfold get_days_in_month
  refine ⟨fun h6 => ?_, fun h7 h11 => ?_, fun h12 hl => ?_, fun h12 hl => ?_⟩
  · rw [if_pos h6]
  · rw [if_neg (by omega), if_pos h11]
  · rw [if_neg (by omega), if_neg (by omega), if_pos hl]
  · rw [if_neg (by omega), if_neg (by omega), if_neg (by simp [hl])]

/-- Witness for C1 at year 1403, month 12, with a leap-year predicate that
holds everywhere. -/
theorem c1_days_in_month_witness :
    get_days_in_month (fun _ => true) 1403 12 = 30 :=
  (c1_days_in_month (fun _ => true) 1403 12 (by decide) (by decide)).2.2.1 rfl rfl

/-- Claim C4: for a displayed month between 1 and 12, moving by -1 from
month 1 gives month 12 of the previous year, moving by +1 from month 12
gives month 1 of the next year, and in every other case (with the
program's deltas -1 and +1) the month changes by delta and the year is
unchanged. -/
theorem c4_change_month (y m : Int) (h1 : 1 ≤ m) (h2 : m ≤ 12) :
    change_month y 1 (-1) = (y - 1, 12) ∧
    change_month y 12 1 = (y + 1, 1) ∧
    (m ≠ 1 → change_month y m (-1) = (y, m - 1)) ∧
    (m ≠ 12 → change_month y m 1 = (y, m + 1)) := by
  refine ⟨by norm_num [change_month], by norm_num [change_month], fun hm => ?_, fun hm => ?_⟩
  · unfold change_month
    rw [if_neg (by omega), if_neg (by omega)]
    exact congrArg (Prod.mk y) (by ring)
  · unfold change_month
    rw [if_neg (by omega), if_neg (by omega)]

/-- Witness for C4 at year 1403, month 5. -/
theorem c4_change_month_witness :
    change_month 1403 5 (-1) = (1403, 4) :=
  (c4_change_month 1403 5 (by decide) (by decide)).2.2.1 (by decide)

theorem endAnchor_false_of_len {l : List Char} (h : 2 ≤ l.length) :
    endAnchor l = false := by
  rcases l with _ | ⟨a, _ | ⟨b, t⟩⟩
  · simp at h
  · simp at h
  · rfl

theorem validTail_false_of_len {l : List Char} (h : 5 ≤ l.length) :
    validTail l = false := by
  rcases l with _ | ⟨c, _ | ⟨d1, _ | ⟨d2, rest⟩⟩⟩
  · rfl
  · rfl
  · rfl
  · show (decide (c.toNat = 58) && decide (48 ≤ d1.toNat ∧ d1.toNat ≤ 53) &&
      isDig d2 && endAnchor rest) = false
    rw [endAnchor_false_of_len (by simp at h; omega)]
    simp

theorem specHHMM_false_of_len {l : List Char} (h : 6 ≤ l.length) :
    specHHMM l = false := by
  unfold specHHMM
  split
  · simp_all
  · simp_all
  · rfl

theorem validate_time_eq_specTimeOkNL (s : List Char) :
    validate_time s = specTimeOkNL s := by
  rcases s with _ | ⟨a, _ | ⟨b, _ | ⟨c, _ | ⟨d, _ | ⟨e, _ | ⟨f, _ | ⟨g, t⟩⟩⟩⟩⟩⟩⟩
  · rfl
  · -- length 1
    rw [Bool.eq_iff_iff]
    simp [validate_time, hourAlt, validTail, endAnchor, specTimeOkNL, specHHMM,
      specHourOk, specMinOk, parseNat, parseDigitsFrom_cons, parseDigitsFrom_nil,
      isDig, digitVal]
  · -- length 2
    rw [Bool.eq_iff_iff]
    simp [validate_time, hourAlt, validTail, endAnchor, specTimeOkNL, specHHMM,
      specHourOk, specMinOk, parseNat, parseDigitsFrom_cons, parseDigitsFrom_nil,
      isDig, digitVal]
  · -- length 3
    rw [Bool.eq_iff_iff]
    simp [validate_time, hourAlt, validTail, endAnchor, specTimeOkNL, specHHMM,
      specHourOk, specMinOk, parseNat, parseDigitsFrom_cons, parseDigitsFrom_nil,
      isDig, digitVal]
  · -- length 4
    rw [Bool.eq_iff_iff]
    simp [validate_time, hourAlt, validTail, endAnchor, specTimeOkNL, specHHMM,
      specHourOk, specMinOk, parseNat, parseDigitsFrom_cons, parseDigitsFrom_nil,
      isDig, digitVal]
    omega
  · -- length 5
    rw [Bool.eq_iff_iff]
    simp [validate_time, hourAlt, validTail, endAnchor, specTimeOkNL, specHHMM,
      specHourOk, specMinOk, parseNat, parseDigitsFrom_cons, parseDigitsFrom_nil,
      isDig, digitVal]
    omega
  · -- length 6
    rw [Bool.eq_iff_iff]
    simp [validate_time, hourAlt, validTail, endAnchor, specTimeOkNL, specHHMM,
      specHourOk, specMinOk, parseNat, parseDigitsFrom_cons, parseDigitsFrom_nil,
      isDig, digitVal]
    omega
  · -- length at least 7: both sides are false
    have h1 : validTail (c :: d :: e :: f :: g :: t) = false :=
      validTail_false_of_len (by simp)
    have h2 : validTail (b :: c :: d :: e :: f :: g :: t) = false :=
      validTail_false_of_len (by simp)
    have h3 : specHHMM (a :: b :: c :: d :: e :: f :: g :: t) = false :=
      specHHMM_false_of_len (by simp)
    have h4 : specHHMM (a :: b :: c :: d :: e :: f :: (g :: t).dropLast) = false :=
      specHHMM_false_of_len (by simp)
    simp [validate_time, hourAlt, specTimeOkNL, h1, h2, h3, h4]

theorem importOne_length {e : RawEvent} {v : List PyVal}
    (h : importOne e = some v) : v.length = 4 := by
  rcases e with fs | s | _
  · rcases fs with _ | ⟨f0, rest⟩
    · exact absurd h (by simp [importOne])
    · simp [importOne] at h
      rw [← h]
      rfl
  · rcases s with _ | ⟨c, cs⟩
    · exact absurd h (by simp [importOne])
    · simp [importOne] at h
      rw [← h]
      rfl
  · exact absurd h (by simp [importOne])

theorem importDay_length {es : List RawEvent} {vs : List (List PyVal)}
    (h : importDay es = some vs) : ∀ v ∈ vs, v.length = 4 := by
  induction es generalizing vs with
  | nil =>
    simp only [importDay, Option.some.injEq] at h
    subst h
    intro v hv
    exact absurd hv (List.not_mem_nil v)
  | cons e es ih =>
    unfold importDay at h
    rcases h1 : importOne e with _ | v1 <;> rw [h1] at h
    · exact absurd h (by simp)
    · rcases h2 : importDay es with _ | vs1 <;> rw [h2] at h
      · exact absurd h (by simp)
      · simp at h
        intro v hv
        rw [← h] at hv
        rcases List.mem_cons.mp hv with hv1 | hv2
        · rw [hv1]; exact importOne_length h1
        · exact ih h2 v hv2

theorem importAll_length {raw : List (Key × List RawEvent)}
    {imp : List (Key × List (List PyVal))} (h : importAll raw = some imp) :
    ∀ kv ∈ imp, ∀ v ∈ kv.2, v.length = 4 := by
  induction raw generalizing imp with
  | nil =>
    simp only [importAll, Option.some.injEq] at h
    subst h
    intro kv hkv
    exact absurd hkv (List.not_mem_nil kv)
  | cons p rest ih =>
    rcases p with ⟨k, es⟩
    unfold importAll at h
    rcases h1 : importDay es with _ | vs <;> rw [h1] at h
    · exact absurd h (by simp)
    · rcases h2 : importAll rest with _ | r <;> rw [h2] at h
      · exact absurd h (by simp)
      · simp at h
        intro kv hkv
        rw [← h] at hkv
        rcases List.mem_cons.mp hkv with hv1 | hv2
        · rw [hv1]; exact importDay_length h1
        · exact ih h2 kv hv2

theorem lookupLast_mem {α : Type} {l : List (Key × α)} {k : Key} {v : α}
    (h : lookupLast l k = some v) : ∃ k', (k', v) ∈ l := by
  induction l with
  | nil => exact absurd h (by simp [lookupLast])
  | cons p rest ih =>
    rcases p with ⟨k'', w⟩
    unfold lookupLast at h
    rcases h1 : lookupLast rest k with _ | r <;> rw [h1] at h <;> simp only at h
    · by_cases hk : k = k''
      · rw [if_pos hk] at h
        simp only [Option.some.injEq] at h
        exact ⟨k'', by rw [← h]; exact List.mem_cons_self _ _⟩
      · rw [if_neg hk] at h
        exact absurd h (by simp)
    · simp only [Option.some.injEq] at h
      rcases ih (h ▸ h1) with ⟨k', hk'⟩
      exact ⟨k', List.mem_cons_of_mem _ hk'⟩

/-! ## Claim C3: every stored record has four fields -/

/-- Claim C3: `add_event`, the edit panel's `save_changes`, and
`import_events` each preserve the invariant that every stored event is a
4-field record; and `import_events` fills the missing fields of a short
imported record with the defaults `'#cccccc'`, `""` and `2`. -/
theorem c3_four_field_invariant :
    (∀ (st : Store) (key : Key) (inp : AddInputs),
      WFStore st → WFStore (add_event st key inp)) ∧
    (∀ (st : Store) (key : Key) (idx : Nat) (t tm pr c : List Char),
      WFStore st → WFStore (edit_save st key idx t tm pr c)) ∧
    (∀ (st : Store) (raw : List (Key × List RawEvent)),
      WFStore st → WFStore (import_events st raw)) ∧
    (∀ f0 : PyVal, importOne (RawEvent.rlist [f0]) =
      some [f0, PyVal.vstr defaultColor, PyVal.vstr [], PyVal.vint 2]) ∧
    (∀ f0 f1 : PyVal, importOne (RawEvent.rlist [f0, f1]) =
      some [f0, f1, PyVal.vstr [], PyVal.vint 2]) ∧
    (∀ f0 f1 f2 : PyVal, importOne (RawEvent.rlist [f0, f1, f2]) =
      some [f0, f1, f2, PyVal.vint 2]) := by
  refine ⟨?_, ?_, ?_, fun f0 => rfl, fun f0 f1 => rfl, fun f0 f1 f2 => rfl⟩
  · intro st key inp hWF
    unfold add_event
    split
    · split
      · exact hWF
      · split
        · exact hWF
        · intro k e he
          simp only at he
          by_cases hk : k = key
          · rw [if_pos hk] at he
            rcases List.mem_append.mp he with h1 | h2
            · exact hWF key e h1
            · simp at h2
              rw [h2]
              rfl
          · rw [if_neg hk] at he
            exact hWF k e he
    · exact hWF
  · intro st key idx t tm pr c hWF
    unfold edit_save
    split
    · exact hWF
    · split
      · exact hWF
      · split
        · exact hWF
        · intro k e he
          simp only at he
          by_cases hk : k = key
          · rw [if_pos hk] at he
            rcases List.mem_or_eq_of_mem_set he with h1 | h2
            · exact hWF key e h1
            · rw [h2]
              rfl
          · rw [if_neg hk] at he
            exact hWF k e he
  · intro st raw hWF
    unfold import_events
    rcases h1 : importAll raw with _ | imp
    · exact hWF
    · intro k e he
      simp only at he
      rcases h2 : lookupLast imp k with _ | v <;> rw [h2] at he
      · exact hWF k e he
      · rcases lookupLast_mem h2 with ⟨k', hk'⟩
        exact importAll_length h1 (k', v) hk' e he

/-- Witness for C3: the invariant holds after adding an event to the
empty store. -/
theorem c3_four_field_invariant_witness :
    WFStore (add_event (fun _ => []) ((1 : Int), (1 : Int), (1 : Int))
      ⟨some ['x'], none, some 2, none⟩) :=
  c3_four_field_invariant.1 _ _ _ (fun _ e he => absurd he (List.not_mem_nil e))

/-! ## Claim C6: per-date operations do not touch other keys -/

/-- Claim C6: `add_event`, the edit panel's save and delete, and the day
page's delete-all button leave the event list of every other date key
unchanged. -/
theorem c6_frame :
    (∀ (st : Store) (key : Key) (inp : AddInputs) (k' : Key), k' ≠ key →
      add_event st key inp k' = st k') ∧
    (∀ (st : Store) (key : Key) (idx : Nat) (t tm pr c : List Char) (k' : Key),
      k' ≠ key → edit_save st key idx t tm pr c k' = st k') ∧
    (∀ (st : Store) (key : Key) (idx : Nat) (confirm : Bool) (k' : Key),
      k' ≠ key → delete_event st key idx confirm k' = st k') ∧
    (∀ (st : Store) (key : Key) (confirm : Bool) (k' : Key), k' ≠ key →
      delete_event_button st key confirm k' = st k') := by
  refine ⟨?_, ?_, ?_, ?_⟩
  · intro st key inp k' hk
    unfold add_event
    split
    · split
      · rfl
      · rcases inp.priority with _ | p
        · rfl
        · exact if_neg hk
    · rfl
  · intro st key idx t tm pr c k' hk
    unfold edit_save
    split
    · rfl
    · split
      · rfl
      · split
        · rfl
        · simp only
          rw [if_neg hk]
  · intro st key idx confirm k' hk
    unfold delete_event
    split
    · rfl
    · split
      · simp only
        rw [if_neg hk]
      · rfl
  · intro st key confirm k' hk
    unfold delete_event_button
    split
    · rfl
    · split
      · simp only
        rw [if_neg hk]
      · rfl

/-- Witness for C6: adding under key (1,1,1) leaves key (2,2,2) of the
empty store unchanged. -/
theorem c6_frame_witness :
    add_event (fun _ => []) ((1 : Int), (1 : Int), (1 : Int))
      ⟨some ['x'], none, some 2, none⟩ ((2 : Int), (2 : Int), (2 : Int)) = [] :=
  c6_frame.1 (fun _ => []) _ _ _ (by decide)

/-! ## Claim C5, settled

The first part of the claim — `validate_time` returns `True` exactly on
the empty string or 24-hour `HH:MM` form — fails on `"2:30\n"`: Python's
`$` anchor also matches just before a newline that ends the string, so
`validate_time("2:30\n")` is `True`.  The amended characterisation
(`specTimeOkNL`) additionally accepts a single trailing newline after the
`HH:MM` form.  The second part — `add_event` rejects an invalid non-empty
time without modifying the store — holds as stated. -/

/-- Counterexample to C5 as stated: on the string `"2:30\n"` (`'\n'` is
code point 10) `validate_time` returns true, yet the string is neither
empty nor of 24-hour `HH:MM` form. -/
theorem c5_counterexample :
    validate_time ['2', ':', '3', '0', '\n'] = true ∧
    specTimeOk ['2', ':', '3', '0', '\n'] = false := by
  exact ⟨by decide, by decide⟩

/-- Claim C5 as amended: `validate_time` returns true exactly when its
argument is empty, or is 24-hour `HH:MM` form (hour 0-23 with one or two
digits, minute 00-59 with two digits) optionally followed by one newline;
and `add_event`, given a truthy time on which `validate_time` is false,
returns with the store unchanged. -/
theorem c5_time_validation :
    (∀ s : List Char, validate_time s = specTimeOkNL s) ∧
    (∀ (st : Store) (key : Key) (inp : AddInputs),
      truthyStr inp.time = true → validate_time (strOrEmpty inp.time) = false →
      add_event st key inp = st) := by
  constructor
  · exact validate_time_eq_specTimeOkNL
  · intro st key inp ht hv
    have hB : (truthyStr inp.time && !validate_time (strOrEmpty inp.time)) = true := by
      rw [ht, hv]
      rfl
    unfold add_event
    split
    · simp [hB]
    · rfl

/-- Witness for C5: with time string `"99"` the store is returned
unchanged. -/
theorem c5_time_validation_witness :
    add_event (fun _ => []) ((1 : Int), (1 : Int), (1 : Int))
      ⟨some ['x'], some ['9', '9'], some 2, none⟩ = (fun _ => []) :=
  c5_time_validation.2 _ _ _ (by decide) (by decide)

/-- Claim C7: `set_calendar` persists the entered year and month exactly
when both fields parse as integers and the month lies in 1..12; whenever a
field fails to parse or the month is out of range, it reports an error and
the persisted settings are unchanged. -/
theorem c7_set_calendar :
    (∀ (ys ms : List Char) (saved : Option (Int × Int)) (y m : Int),
      pyInt ys = some y → pyInt ms = some m → 1 ≤ m → m ≤ 12 →
      set_calendar ys ms saved = (some (y, m), false)) ∧
    (∀ (ys ms : List Char) (saved : Option (Int × Int)),
      pyInt ys = none → set_calendar ys ms saved = (saved, true)) ∧
    (∀ (ys ms : List Char) (saved : Option (Int × Int)),
      pyInt ms = none → set_calendar ys ms saved = (saved, true)) ∧
    (∀ (ys ms : List Char) (saved : Option (Int × Int)) (y m : Int),
      pyInt ys = some y → pyInt ms = some m → (m < 1 ∨ 12 < m) →
      set_calendar ys ms saved = (saved, true)) := by
  refine ⟨?_, ?_, ?_, ?_⟩
  · intro ys ms saved y m hy hm h1 h2
    unfold set_calendar
    rw [hy, hm]
    show (if 1 ≤ m ∧ m ≤ 12 then (some (y, m), false) else (saved, true)) = _
    rw [if_pos ⟨h1, h2⟩]
  · intro ys ms saved hy
    unfold set_calendar
    rw [hy]
  · intro ys ms saved hm
    unfold set_calendar
    rw [hm]
    rcases pyInt ys with _ | y <;> rfl
  · intro ys ms saved y m hy hm hout
    unfold set_calendar
    rw [hy, hm]
    show (if 1 ≤ m ∧ m ≤ 12 then (some (y, m), false) else (saved, true)) = _
    rw [if_neg (by omega)]

/-- Witness for C7: the fields `"5"` and `"2"` are persisted, and the
month field `"13"` is rejected with the settings unchanged. -/
theorem c7_set_calendar_witness :
    set_calendar ['5'] ['2'] none = (some (5, 2), false) ∧
    set_calendar ['5'] ['1', '3'] (some (9, 9)) = (some (9, 9), true) :=
  ⟨c7_set_calendar.1 ['5'] ['2'] none 5 2 (by decide) (by decide) (by decide) (by decide),
   c7_set_calendar.2.2.2 ['5'] ['1', '3'] (some (9, 9)) 5 13
     (by decide) (by decide) (by decide)⟩

/-- Claim C8: `get_event_color` is total on every count: count 0 yields
the default colour `'#cccccc'` whatever the colour argument; a positive
count yields an index within the ten shades, so the access cannot fail,
and the result is the colour argument when that is a non-empty string and
the indexed shade otherwise. -/
theorem c8_get_event_color (n : Nat) (color : Option (List Char)) :
    (get_event_color 0 color = some defaultColor) ∧
    (0 < n → min n 10 - 1 < shades.length ∧
      ∃ hlt : min n 10 - 1 < shades.length,
        get_event_color n color = some (pyOrStr color (shades.get ⟨min n 10 - 1, hlt⟩))) ∧
    (∀ (c : Char) (cs d : List Char), pyOrStr (some (c :: cs)) d = c :: cs) ∧
    (∀ d : List Char, pyOrStr none d = d) ∧
    (∀ d : List Char, pyOrStr (some []) d = d) := by
  refine ⟨rfl, ?_, fun c cs d => rfl, fun d => rfl, fun d => rfl⟩
  intro hn
  have hmin : min n 10 ≤ 10 := Nat.min_le_right n 10
  have hidx : min n 10 - 1 < shades.length := by
    show min n 10 - 1 < 10
    omega
  refine ⟨hidx, hidx, ?_⟩
  unfold get_event_color
  rw [if_pos hn, List.getElem?_eq_getElem hidx]
  rfl

/-- Witness for C8: at count 3 the index is in bounds and the third shade
is returned when no colour is given. -/
theorem c8_get_event_color_witness :
    min 3 10 - 1 < shades.length ∧ get_event_color 0 none = some defaultColor :=
  ⟨((c8_get_event_color 3 none).2.1 (by decide)).1, (c8_get_event_color 0 none).1⟩

/-! ## Claim C9: priority conversions -/

/-- Claim C9: the two priority conversions are mutually inverse on the
valid priorities 1, 2, 3; `str_to_priority` sends every other string to 2;
and `priority_to_str` sends every integer outside 1..3 to `"Unknown"`. -/
theorem c9_priority_conversions :
    (∀ p : Int, p = 1 ∨ p = 2 ∨ p = 3 → str_to_priority (priority_to_str p) = p) ∧
    (∀ s : List Char, s ≠ highStr → s ≠ mediumStr → s ≠ lowStr →
      str_to_priority s = 2) ∧
    (∀ p : Int, p ≠ 1 → p ≠ 2 → p ≠ 3 → priority_to_str p = unknownStr) := by
  refine ⟨fun p hp => ?_, fun s h1 h2 h3 => ?_, fun p h1 h2 h3 => ?_⟩
  · rcases hp with h | h | h <;> subst h <;> decide
  · unfold str_to_priority
    rw [if_neg h1, if_neg h2, if_neg h3]
  · unfold priority_to_str
    rw [if_neg h1, if_neg h2, if_neg h3]

/-- Witness for C9: round trip at priority 1, default for the string
`"bogus"` and for priority 7. -/
theorem c9_priority_conversions_witness :
    str_to_priority (priority_to_str 1) = 1 ∧
    str_to_priority ['b', 'o', 'g', 'u', 's'] = 2 ∧
    priority_to_str 7 = unknownStr :=
  ⟨c9_priority_conversions.1 1 (Or.inl rfl),
   c9_priority_conversions.2.1 ['b', 'o', 'g', 'u', 's'] (by decide) (by decide) (by decide),
   c9_priority_conversions.2.2 7 (by decide) (by decide) (by decide)⟩

theorem lexLe_cons (a b : Char) (as bs : List Char) :
    lexLe (a :: as) (b :: bs) = true ↔
      a.toNat < b.toNat ∨ (a.toNat = b.toNat ∧ lexLe as bs = true) := by
  show (if a.toNat < b.toNat then true
    else if a.toNat = b.toNat then lexLe as bs else false) = true ↔ _
  by_cases h1 : a.toNat < b.toNat
  · rw [if_pos h1]
    simp [h1]
  · by_cases h2 : a.toNat = b.toNat
    · rw [if_neg h1, if_pos h2]
      simp [h1, h2]
    · rw [if_neg h1, if_neg h2]
      simp [h1, h2]

theorem lexLe_refl : ∀ l : List Char, lexLe l l = true
  | [] => rfl
  | c :: cs => (lexLe_cons c c cs cs).mpr (Or.inr ⟨rfl, lexLe_refl cs⟩)

theorem lexLe_total : ∀ a b : List Char, (lexLe a b || lexLe b a) = true
  | [], _ => rfl
  | _ :: _, [] => rfl
  | a :: as, b :: bs => by
    rcases Bool.or_eq_true _ _ |>.mp (lexLe_total as bs) with h | h
    · by_cases h1 : a.toNat < b.toNat
      · rw [(lexLe_cons a b as bs).mpr (Or.inl h1)]
        rfl
      · by_cases h2 : a.toNat = b.toNat
        · rw [(lexLe_cons a b as bs).mpr (Or.inr ⟨h2, h⟩)]
          rfl
        · rw [(lexLe_cons b a bs as).mpr (Or.inl (by omega))]
          simp
    · by_cases h1 : b.toNat < a.toNat
      · rw [(lexLe_cons b a bs as).mpr (Or.inl h1)]
        simp
      · by_cases h2 : b.toNat = a.toNat
        · rw [(lexLe_cons b a bs as).mpr (Or.inr ⟨h2, h⟩)]
          simp
        · rw [(lexLe_cons a b as bs).mpr (Or.inl (by omega))]
          rfl

theorem lexLe_trans : ∀ a b c : List Char,
    lexLe a b = true → lexLe b c = true → lexLe a c = true
  | [], _, _, _, _ => rfl
  | _ :: _, [], _, hab, _ => absurd hab Bool.false_ne_true
  | _ :: _, _ :: _, [], _, hbc => absurd hbc Bool.false_ne_true
  | a :: as, b :: bs, c :: cs, hab, hbc => by
    rcases (lexLe_cons a b as bs).mp hab with h1 | ⟨h1, h1r⟩ <;>
      rcases (lexLe_cons b c bs cs).mp hbc with h2 | ⟨h2, h2r⟩
    · exact (lexLe_cons a c as cs).mpr (Or.inl (by omega))
    · exact (lexLe_cons a c as cs).mpr (Or.inl (by omega))
    · exact (lexLe_cons a c as cs).mpr (Or.inl (by omega))
    · exact (lexLe_cons a c as cs).mpr
        (Or.inr ⟨by omega, lexLe_trans as bs cs h1r h2r⟩)

theorem keyLe_total (a b : Bool × List Char) : (keyLe a b || keyLe b a) = true := by
  rcases a with ⟨a1, a2⟩
  rcases b with ⟨b1, b2⟩
  unfold keyLe
  cases a1 <;> cases b1 <;> simp <;> exact (Bool.or_eq_true _ _).mp (lexLe_total _ _)

theorem keyLe_trans (a b c : Bool × List Char) :
    keyLe a b = true → keyLe b c = true → keyLe a c = true := by
  rcases a with ⟨a1, a2⟩
  rcases b with ⟨b1, b2⟩
  rcases c with ⟨c1, c2⟩
  unfold keyLe
  cases a1 <;> cases b1 <;> cases c1 <;> simp <;> exact lexLe_trans _ _ _

theorem sortLe_total (a b : SEvent) : (sortLe a b || sortLe b a) = true :=
  keyLe_total _ _

theorem sortLe_trans (a b c : SEvent) :
    sortLe a b = true → sortLe b c = true → sortLe a c = true :=
  keyLe_trans _ _ _

/-- Claim C10: `sort_by_time` permutes the day's events; afterwards every
event with a non-empty time precedes every event with an empty time; the
events with non-empty times are in non-decreasing lexicographic order of
their time strings; and events with equal sort keys keep their relative
order (stability). -/
theorem c10_sort_by_time (l : List SEvent) :
    (sort_by_time l).Perm l ∧
    List.Pairwise (fun a b => timeStr a = [] → timeStr b = []) (sort_by_time l) ∧
    List.Pairwise (fun a b => timeStr a ≠ [] → timeStr b ≠ [] →
      lexLe (timeStr a) (timeStr b) = true) (sort_by_time l) ∧
    (∀ a b : SEvent, sortKeyTime a = sortKeyTime b → List.Sublist [a, b] l →
      List.Sublist [a, b] (sort_by_time l)) := by
  have hs : List.Pairwise (fun a b => sortLe a b = true) (sort_by_time l) :=
    List.sorted_mergeSort (fun x y z => sortLe_trans x y z)
      (fun x y => sortLe_total x y) l
  refine ⟨List.mergeSort_perm l sortLe, ?_, ?_, ?_⟩
  · refine hs.imp ?_
    intro a b hab hta
    by_contra htb
    simp [sortLe, keyLe, sortKeyTime, hta, htb] at hab
  · refine hs.imp ?_
    intro a b hab hta htb
    simpa [sortLe, keyLe, sortKeyTime, hta, htb] using hab
  · intro a b hkey hsub
    have hle : sortLe a b = true := by
      unfold sortLe
      rw [hkey]
      unfold keyLe
      rw [if_pos rfl]
      exact lexLe_refl _
    exact List.pair_sublist_mergeSort (fun x y z => sortLe_trans x y z)
      (fun x y => sortLe_total x y) hle hsub

/-- Witness for C10: two events with empty times (equal sort keys) keep
their order. -/
theorem c10_sort_by_time_witness :
    List.Sublist [((['a'], [], [], 2) : SEvent), (['b'], [], [], 3)]
      (sort_by_time [(['a'], [], [], 2), (['b'], [], [], 3)]) :=
  (c10_sort_by_time [(['a'], [], [], 2), (['b'], [], [], 3)]).2.2.2
    (['a'], [], [], 2) (['b'], [], [], 3) rfl (List.Sublist.refl _)

end ShamsiCalendar
